import Mathlib

/-!
# Verification of the LMTP scheduler core (`lmtp_scheduler.py`)

A shallow embedding of the scheduling and batching engine of the LMTP
token-streaming service: `GenerateCall`, `GenerateBatch`, the two streamers,
the per-model `Scheduler` and its process-wide registry, and the
`TokenSession` SCORE submission path.  Token ids are `Nat`, scores are
modelled as `Int` (scores are only selected, compared and copied by the
code under verification, never combined arithmetically), Python dict values
are the inductive `PyVal`, and Python dicts are insertion-ordered
association lists with unique keys, as maintained by `pyDictSet`.
-/

namespace LMTP

/-- A Python value as it occurs in the `kwargs` dictionaries of the
scheduler: booleans, integers and strings.  (Float-valued options are only
threaded through unchanged by the code under verification, so integer
values stand in for them.) -/
inductive PyVal where
  | vBool : Bool → PyVal
  | vInt : Int → PyVal
  | vStr : String → PyVal
deriving DecidableEq, Repr

/-- Python truthiness of a `PyVal` (`bool(v)`). -/
def PyVal.truthy : PyVal → Bool
  | .vBool b => b
  | .vInt n => n != 0
  | .vStr s => s != ""

/-- Python `str(v)` as used by `"{}-{}".format(k, v)`. -/
def PyVal.pyStr : PyVal → String
  | .vBool true => "True"
  | .vBool false => "False"
  | .vInt n => toString n
  | .vStr s => s

/-- A Python dict with string keys: an insertion-ordered association list. -/
abbrev PyDict := List (String × PyVal)

/-- `d.get(k, dflt)`: the value of the first (for a dict: only) entry with
key `k`. -/
def pyGet (d : PyDict) (k : String) (dflt : PyVal) : PyVal :=
  match d with
  | [] => dflt
  | kv :: rest => if kv.1 == k then kv.2 else pyGet rest k dflt

/-- `d.get(k, dflt)` for an integer-valued option. -/
def pyGetInt (d : PyDict) (k : String) (dflt : Int) : Int :=
  match pyGet d k (.vInt dflt) with
  | .vInt n => n
  | _ => dflt

/-- `d.get(k, dflt)` for a (nonnegative) integer-valued option. -/
def pyGetNat (d : PyDict) (k : String) (dflt : Nat) : Nat :=
  (pyGetInt d k (Int.ofNat dflt)).toNat

/-- `d.pop(k, None)`: the dict without key `k`. -/
def pyPop (d : PyDict) (k : String) : PyDict :=
  d.filter (fun kv => kv.1 != k)

/-- `d[k] = v`: overwrite in place if the key is present, else append. -/
def pyDictSet (d : PyDict) (k : String) (v : PyVal) : PyDict :=
  if d.any (fun kv => kv.1 == k) then
    d.map (fun kv => if kv.1 == k then (k, v) else kv)
  else
    d ++ [(k, v)]

/-- `d.setdefault(k, v)`: append `(k, v)` only when the key is absent. -/
def pySetdefault (d : PyDict) (k : String) (v : PyVal) : PyDict :=
  if d.any (fun kv => kv.1 == k) then d else d ++ [(k, v)]

/-- Lexicographic (code-point) comparison of character lists, the order
Python's `sorted` uses on strings. -/
def charsLe : List Char → List Char → Bool
  | [], _ => true
  | _ :: _, [] => false
  | a :: as, b :: bs =>
    if a.val < b.val then true
    else if b.val < a.val then false
    else charsLe as bs

/-- Python's `<=` on strings (code-point lexicographic). -/
def strLe (a b : String) : Bool := charsLe a.data b.data

/-- Insert a dict entry into a key-sorted list of entries (stable). -/
def insertByKey (kv : String × PyVal) : List (String × PyVal) → List (String × PyVal)
  | [] => [kv]
  | kv' :: rest =>
    if strLe kv.1 kv'.1 then kv :: kv' :: rest else kv' :: insertByKey kv rest

/-- Python's `sorted(d.items())` on a dict with distinct keys: insertion
sort of the entries by key. -/
def sortedItems (d : PyDict) : List (String × PyVal) :=
  d.foldr insertByKey []

/-- Python `max` over a list of naturals (`0` only reached on the empty
list, where Python raises; callers guard non-emptiness). -/
def pyMaxNat (l : List Nat) : Nat := l.foldr Nat.max 0

/-- One in-flight request (`GenerateCall`, lines 21–53 of
`lmtp_scheduler.py`): prompt token ids, logit bias, free-form kwargs, the
client stream id, and the identity of the session output queue the call
writes to (`result_queue`, modelled by a numeric id). -/
structure GenerateCall where
  prompt : List Nat
  logit_bias : List (Nat × Int)
  kwargs : PyDict
  stream_id : Nat
  result_queue : Nat
  cancelled : Bool := false
deriving DecidableEq, Repr

/-- `kwargs.get("score", False)` is truthy: this call is a scoring call. -/
def GenerateCall.isScore (c : GenerateCall) : Bool :=
  (pyGet c.kwargs "score" (.vBool false)).truthy

/-- `GenerateCall.generation_mode` (lines 43–53): `"score"` for scoring
calls, else a `"generate-"`-prefixed key over the kwargs without
`max_tokens` and `top_logprobs`, with `temperature` defaulting to `0`. -/
def GenerateCall.generation_mode (c : GenerateCall) : String :=
  if c.isScore then "score"
  else
    let key_args := pyPop (pyPop c.kwargs "max_tokens") "top_logprobs"
    let key_args := pySetdefault key_args "temperature" (.vInt 0)
    "generate-" ++
      String.intercalate "-"
        ((sortedItems key_args).map (fun kv => kv.1 ++ "-" ++ kv.2.pyStr))

/-- An executable batch (`GenerateBatch`, lines 55–99). -/
structure GenerateBatch where
  input_ids : List (List Nat)
  attention_mask : List (List Nat)
  temperature : PyVal
  max_tokens : Int
  logit_biases : List (List (Nat × Int))
  calls : List GenerateCall
  is_score : Bool := false
  scoring_offsets : Option (List Nat) := none
  kwargs : PyDict := []
deriving Repr

/-- `GenerateBatch.from_calls` (lines 70–99).  Returns `none` where the
Python raises: on an empty call list (`max` of an empty sequence) and on
the "cannot mix score and non-score calls in batch" assertion. -/
def GenerateBatch.from_calls (calls : List GenerateCall) : Option GenerateBatch :=
  match calls with
  | [] => none
  | c0 :: _ =>
    let input_ids0 := calls.map (·.prompt)
    let max_len := pyMaxNat (input_ids0.map List.length)
    let attention_mask := input_ids0.map
      (fun ids => List.replicate (max_len - ids.length) 0 ++ List.replicate ids.length 1)
    let input_ids := input_ids0.map
      (fun ids => List.replicate (max_len - ids.length) 0 ++ ids)
    let temperature := pyGet c0.kwargs "temperature" (.vInt 0)
    let max_tokens :=
      match calls.map (fun c => pyGetInt c.kwargs "max_tokens" 32) with
      | [] => 0
      | x :: xs => xs.foldl max x
    let logit_biases := calls.map (·.logit_bias)
    let is_score := calls.any (·.isScore)
    if is_score && !(calls.all (·.isScore)) then
      none
    else
      let scoring_offsets :=
        if is_score then
          some (calls.map (fun c =>
            pyGetNat c.kwargs "scoring_offset" 0 + (max_len - c.prompt.length)))
        else none
      let kwargs := pyPop (pyPop (pyPop c0.kwargs "max_tokens") "top_logprobs") "temperature"
      some { input_ids := input_ids, attention_mask := attention_mask,
             temperature := temperature, max_tokens := max_tokens,
             logit_biases := logit_biases, calls := calls,
             is_score := is_score, scoring_offsets := scoring_offsets,
             kwargs := kwargs }

/-- `GenerateBatch.cancelled` (lines 101–102): every constituent call is
cancelled. -/
def GenerateBatch.batchCancelled (b : GenerateBatch) : Bool :=
  !(b.calls.any (fun c => !c.cancelled))

/-- The longest prompt length of a group of calls (`max_len` in
`from_calls`). -/
def maxPromptLen (calls : List GenerateCall) : Nat :=
  pyMaxNat ((calls.map (·.prompt)).map List.length)

lemma le_pyMaxNat {l : List Nat} {x : Nat} (h : x ∈ l) : x ≤ pyMaxNat l := by
  induction l with
  | nil => cases h
  | cons y ys ih =>
    rcases List.mem_cons.mp h with rfl | h'
    · exact Nat.le_max_left _ _
    · exact le_trans (ih h') (Nat.le_max_right _ _)

lemma pyMaxNat_mem {l : List Nat} (h : l ≠ []) : pyMaxNat l ∈ l := by
  induction l with
  | nil => exact absurd rfl h
  | cons y ys ih =>
    rcases Decidable.eq_or_ne ys [] with rfl | hne
    · simp [pyMaxNat]
    · rcases Nat.le_total (pyMaxNat ys) y with hle | hle
      · have : pyMaxNat (y :: ys) = y := by
          simp only [pyMaxNat, List.foldr_cons]
          exact Nat.max_eq_left hle
        simp [this]
      · have : pyMaxNat (y :: ys) = pyMaxNat ys := by
          simp only [pyMaxNat, List.foldr_cons]
          exact Nat.max_eq_right hle
        rw [this]
        exact List.mem_cons_of_mem _ (ih hne)

lemma prompt_len_le_maxPromptLen {calls : List GenerateCall} {c : GenerateCall}
    (h : c ∈ calls) : c.prompt.length ≤ maxPromptLen calls :=
  le_pyMaxNat (by
    simp only [List.map_map, List.mem_map]
    exact ⟨c, h, rfl⟩)

lemma mode_of_isScore {c : GenerateCall} (h : c.isScore = true) :
    c.generation_mode = "score" := by
  simp [GenerateCall.generation_mode, h]

lemma generate_prefix_ne_score (s : String) : "generate-" ++ s ≠ "score" := by
  intro h
  have hlen := congrArg String.length h
  rw [String.length_append] at hlen
  have h9 : ("generate-" : String).length = 9 := rfl
  have h5 : ("score" : String).length = 5 := rfl
  omega

lemma isScore_of_mode {c : GenerateCall} (h : c.generation_mode = "score") :
    c.isScore = true := by
  by_contra hn
  rw [Bool.not_eq_true] at hn
  simp only [GenerateCall.generation_mode, hn, Bool.false_eq_true, if_false] at h
  exact generate_prefix_ne_score _ h

/-- If all calls of a group share one generation mode and some call is a
scoring call, then every call is: the mode of a scoring call is `"score"`,
and only scoring calls have that mode. -/
lemma all_score_of_shared_mode {calls : List GenerateCall} {m : String}
    (hmode : ∀ c ∈ calls, c.generation_mode = m)
    (hany : calls.any (·.isScore) = true) : calls.all (·.isScore) = true := by
  rcases List.any_eq_true.mp hany with ⟨c, hc, hcs⟩
  have hm : m = "score" := by rw [← hmode c hc]; exact mode_of_isScore hcs
  refine List.all_eq_true.mpr (fun c' hc' => ?_)
  exact isScore_of_mode (by rw [hmode c' hc', hm])

/-- Unfolding of `from_calls` on a non-empty group that passes the
score/non-score assertion. -/
lemma from_calls_eq {calls : List GenerateCall} {c0 : GenerateCall} {tl : List GenerateCall}
    (h : calls = c0 :: tl)
    (hok : calls.any (·.isScore) = true → calls.all (·.isScore) = true) :
    GenerateBatch.from_calls calls = some
      { input_ids := calls.map (fun c =>
          List.replicate (maxPromptLen calls - c.prompt.length) 0 ++ c.prompt),
        attention_mask := calls.map (fun c =>
          List.replicate (maxPromptLen calls - c.prompt.length) 0 ++
            List.replicate c.prompt.length 1),
        temperature := pyGet c0.kwargs "temperature" (.vInt 0),
        max_tokens :=
          match calls.map (fun c => pyGetInt c.kwargs "max_tokens" 32) with
          | [] => 0
          | x :: xs => xs.foldl max x,
        logit_biases := calls.map (·.logit_bias),
        calls := calls,
        is_score := calls.any (·.isScore),
        scoring_offsets :=
          if calls.any (·.isScore) then
            some (calls.map (fun c =>
              pyGetNat c.kwargs "scoring_offset" 0 +
                (maxPromptLen calls - c.prompt.length)))
          else none,
        kwargs := pyPop (pyPop (pyPop c0.kwargs "max_tokens") "top_logprobs") "temperature" } := by
  subst h
  have hcond : ((c0 :: tl).any (·.isScore) && !((c0 :: tl).all (·.isScore))) = false := by
    rcases h : (c0 :: tl).any (·.isScore) with _ | _
    · simp
    · simp [hok h]
  simp only [GenerateBatch.from_calls, List.map_map, hcond, Bool.false_eq_true, if_false,
    maxPromptLen]
  rfl

lemma getElem?_map_of_getElem? {α β : Type} (f : α → β) {l : List α} {i : Nat} {x : α}
    (h : l[i]? = some x) : (List.map f l)[i]? = some (f x) := by
  rw [List.getElem?_map, h]
  rfl

/-- **C1.** For every non-empty group of calls sharing one
`generation_mode`, `GenerateBatch.from_calls` succeeds and produces
`input_ids` rows all of length `Lmax = max(len(c.prompt))`, each row
left-padded with zeros with the real prompt tokens in the rightmost
positions, and `attention_mask` rows that are `0` exactly over the padding
and `1` exactly over the real tokens, so each mask row sums to the prompt
length. -/
theorem claim1_from_calls_left_padding (calls : List GenerateCall) (c0 : GenerateCall)
    (h0 : calls.head? = some c0)
    (hmode : ∀ c ∈ calls, c.generation_mode = c0.generation_mode) :
    ∃ b, GenerateBatch.from_calls calls = some b ∧
      b.input_ids.length = calls.length ∧
      b.attention_mask.length = calls.length ∧
      (∀ c ∈ calls, c.prompt.length ≤ maxPromptLen calls) ∧
      (∃ c ∈ calls, c.prompt.length = maxPromptLen calls) ∧
      (∀ row ∈ b.input_ids, row.length = maxPromptLen calls) ∧
      (∀ (i : Nat) (c : GenerateCall), calls[i]? = some c →
        b.input_ids[i]? =
          some (List.replicate (maxPromptLen calls - c.prompt.length) 0 ++ c.prompt) ∧
        b.attention_mask[i]? =
          some (List.replicate (maxPromptLen calls - c.prompt.length) 0 ++
            List.replicate c.prompt.length 1) ∧
        (∀ row, b.attention_mask[i]? = some row → row.sum = c.prompt.length)) := by
  cases calls with
  | nil => cases h0
  | cons hd tl =>
    have hhd : hd = c0 := by simpa using h0
    subst hhd
    have hok := fun h => all_score_of_shared_mode hmode h
    refine ⟨_, from_calls_eq rfl hok, ?_, ?_, ?_, ?_, ?_, ?_⟩
    · simp
    · simp
    · exact fun c hc => prompt_len_le_maxPromptLen hc
    · have hne : (((hd :: tl).map (·.prompt)).map List.length) ≠ [] := by simp
      have hmem := pyMaxNat_mem hne
      simp only [List.map_map, List.mem_map, Function.comp] at hmem
      rcases hmem with ⟨c, hc, hlen⟩
      refine ⟨c, hc, ?_⟩
      simpa [maxPromptLen, List.map_map, Function.comp] using hlen
    · intro row hrow
      simp only [List.mem_map] at hrow
      rcases hrow with ⟨c, hc, rfl⟩
      have hle := prompt_len_le_maxPromptLen hc
      simp only [List.length_append, List.length_replicate]
      omega
    · intro i c hi
      refine ⟨?_, ?_, ?_⟩
      · exact getElem?_map_of_getElem?
          (fun c => List.replicate (maxPromptLen (hd :: tl) - c.prompt.length) 0 ++ c.prompt) hi
      · exact getElem?_map_of_getElem?
          (fun c => List.replicate (maxPromptLen (hd :: tl) - c.prompt.length) 0 ++
            List.replicate c.prompt.length 1) hi
      · intro row hrow
        have hrow2 : (List.map
            (fun c => List.replicate (maxPromptLen (hd :: tl) - c.prompt.length) 0 ++
              List.replicate c.prompt.length 1) (hd :: tl))[i]? = some row := hrow
        rw [getElem?_map_of_getElem?
          (fun c => List.replicate (maxPromptLen (hd :: tl) - c.prompt.length) 0 ++
            List.replicate c.prompt.length 1) hi] at hrow2
        have hrow' := Option.some_inj.mp hrow2
        subst hrow'
        simp [List.sum_append, List.sum_replicate]

/-- Witness batch for C1: prompts `[1, 2]` and `[1, 2, 3]` with identical
kwargs. -/
def c1CallA : GenerateCall :=
  { prompt := [1, 2], logit_bias := [], kwargs := [], stream_id := 1, result_queue := 0 }

/-- Second witness call for C1. -/
def c1CallB : GenerateCall :=
  { prompt := [1, 2, 3], logit_bias := [], kwargs := [], stream_id := 2, result_queue := 0 }

/-- Witness for C1 at a concrete two-call group. -/
theorem claim1_from_calls_left_padding_witness :
    ∃ b, GenerateBatch.from_calls [c1CallA, c1CallB] = some b ∧
      b.input_ids.length = [c1CallA, c1CallB].length ∧
      b.attention_mask.length = [c1CallA, c1CallB].length ∧
      (∀ c ∈ [c1CallA, c1CallB], c.prompt.length ≤ maxPromptLen [c1CallA, c1CallB]) ∧
      (∃ c ∈ [c1CallA, c1CallB], c.prompt.length = maxPromptLen [c1CallA, c1CallB]) ∧
      (∀ row ∈ b.input_ids, row.length = maxPromptLen [c1CallA, c1CallB]) ∧
      (∀ (i : Nat) (c : GenerateCall), [c1CallA, c1CallB][i]? = some c →
        b.input_ids[i]? =
          some (List.replicate (maxPromptLen [c1CallA, c1CallB] - c.prompt.length) 0 ++ c.prompt) ∧
        b.attention_mask[i]? =
          some (List.replicate (maxPromptLen [c1CallA, c1CallB] - c.prompt.length) 0 ++
            List.replicate c.prompt.length 1) ∧
        (∀ row, b.attention_mask[i]? = some row → row.sum = c.prompt.length)) :=
  claim1_from_calls_left_padding [c1CallA, c1CallB] c1CallA rfl (by decide)

/-- **C6.** For every non-empty group of calls sharing one
`generation_mode` value, the "cannot mix score and non-score" failure of
`from_calls` is unreachable: construction succeeds, if any call of the
group is a scoring call then all are, and `generation_mode` is `"score"`
exactly on scoring calls. -/
theorem claim6_score_mixing_unreachable (calls : List GenerateCall) (c0 : GenerateCall)
    (h0 : calls.head? = some c0)
    (hmode : ∀ c ∈ calls, c.generation_mode = c0.generation_mode) :
    (GenerateBatch.from_calls calls).isSome = true ∧
    ((∃ c ∈ calls, c.isScore = true) → ∀ c ∈ calls, c.isScore = true) ∧
    (∀ c ∈ calls, c.isScore = true ↔ c.generation_mode = "score") := by
  cases calls with
  | nil => cases h0
  | cons hd tl =>
    have hhd : hd = c0 := by simpa using h0
    subst hhd
    have hok := fun h => all_score_of_shared_mode hmode h
    refine ⟨?_, ?_, ?_⟩
    · rw [from_calls_eq rfl hok]
      rfl
    · intro ⟨c, hc, hcs⟩
      have hall := hok (List.any_eq_true.mpr ⟨c, hc, hcs⟩)
      exact fun c' hc' => List.all_eq_true.mp hall c' hc'
    · exact fun c _ => ⟨mode_of_isScore, isScore_of_mode⟩

/-- Witness scoring call for C6. -/
def c6Call : GenerateCall :=
  { prompt := [5, 6], logit_bias := [],
    kwargs := [("score", .vBool true), ("scoring_offset", .vInt 1)],
    stream_id := 3, result_queue := 0 }

/-- Witness for C6: a concrete one-call score group. -/
theorem claim6_score_mixing_unreachable_witness :
    (GenerateBatch.from_calls [c6Call]).isSome = true ∧
    ((∃ c ∈ [c6Call], c.isScore = true) → ∀ c ∈ [c6Call], c.isScore = true) ∧
    (∀ c ∈ [c6Call], c.isScore = true ↔ c.generation_mode = "score") :=
  claim6_score_mixing_unreachable [c6Call] c6Call rfl (by decide)

/-- `batches_by_mode.setdefault(mode, []).append(c)` (lines 266–269): add a
call to its mode's group, keeping dict insertion order. -/
def addToGroups (groups : List (String × List GenerateCall)) (mode : String)
    (c : GenerateCall) : List (String × List GenerateCall) :=
  if groups.any (fun g => g.1 == mode) then
    groups.map (fun g => if g.1 == mode then (g.1, g.2 ++ [c]) else g)
  else
    groups ++ [(mode, [c])]

/-- The `batches_by_mode` dict of `Scheduler.batches`: calls grouped by
`generation_mode`, in arrival order. -/
def batchesByMode (calls : List GenerateCall) : List (String × List GenerateCall) :=
  calls.foldl (fun acc c => addToGroups acc c.generation_mode c) []

/-- `batches[i:i+max_batch_size]` chunking (lines 274–276).  The `0` case
is unreachable from the source (`range` with step `0` raises); it is given
a value only to make the recursion total. -/
def chunkList {α : Type} : Nat → List α → List (List α)
  | _, [] => []
  | 0, l => [l]
  | k + 1, x :: xs =>
    (x :: xs).take (k + 1) :: chunkList (k + 1) ((x :: xs).drop (k + 1))
termination_by _ l => l.length
decreasing_by simp; omega

/-- `Scheduler.batches` (lines 254–280) after the timed queue drain: the
drained calls are grouped by `generation_mode` and groups larger than
`max_batch_size` are split into chunks.  (The 100 ms drain window is
real-time behaviour; the function is parametrised by the list of calls the
drain returned, in queue order.)  Note: no call is filtered out here,
cancelled or not. -/
def schedulerBatches (calls : List GenerateCall) (max_batch_size : Nat) :
    List (List GenerateCall) :=
  (batchesByMode calls).foldl
    (fun acc g =>
      if g.2.length > max_batch_size then acc ++ chunkList max_batch_size g.2
      else acc ++ [g.2])
    []

lemma mem_addToGroups_old {groups : List (String × List GenerateCall)} {m : String}
    {c : GenerateCall} {g : String × List GenerateCall} {x : GenerateCall}
    (hg : g ∈ groups) (hx : x ∈ g.2) :
    ∃ g' ∈ addToGroups groups m c, x ∈ g'.2 := by
  unfold addToGroups
  split
  · refine ⟨if g.1 == m then (g.1, g.2 ++ [c]) else g, List.mem_map_of_mem _ hg, ?_⟩
    split
    · exact List.mem_append_left _ hx
    · exact hx
  · exact ⟨g, List.mem_append_left _ hg, hx⟩

lemma mem_addToGroups_new (groups : List (String × List GenerateCall)) (m : String)
    (c : GenerateCall) :
    ∃ g' ∈ addToGroups groups m c, c ∈ g'.2 := by
  unfold addToGroups
  split
  · next h =>
    rcases List.any_eq_true.mp h with ⟨g, hg, hgm⟩
    refine ⟨(g.1, g.2 ++ [c]), ?_, List.mem_append_right _ (List.mem_singleton_self c)⟩
    have : (if g.1 == m then (g.1, g.2 ++ [c]) else g) = (g.1, g.2 ++ [c]) := by
      rw [if_pos hgm]
    exact this ▸ List.mem_map_of_mem _ hg
  · exact ⟨(m, [c]), List.mem_append_right _ (List.mem_singleton_self _),
      List.mem_singleton_self c⟩

lemma foldGroups_preserves (calls : List GenerateCall)
    (acc : List (String × List GenerateCall)) (x : GenerateCall)
    (h : ∃ g ∈ acc, x ∈ g.2) :
    ∃ g ∈ calls.foldl (fun a c => addToGroups a c.generation_mode c) acc, x ∈ g.2 := by
  induction calls generalizing acc with
  | nil => exact h
  | cons d rest ih =>
    rcases h with ⟨g, hg, hx⟩
    exact ih _ (mem_addToGroups_old hg hx)

lemma foldGroups_adds (calls : List GenerateCall)
    (acc : List (String × List GenerateCall)) (c : GenerateCall) (h : c ∈ calls) :
    ∃ g ∈ calls.foldl (fun a c => addToGroups a c.generation_mode c) acc, c ∈ g.2 := by
  induction calls generalizing acc with
  | nil => cases h
  | cons d rest ih =>
    rcases List.mem_cons.mp h with rfl | h'
    · exact foldGroups_preserves rest _ c (mem_addToGroups_new acc c.generation_mode c)
    · exact ih _ h'

lemma mem_batchesByMode {calls : List GenerateCall} {c : GenerateCall} (h : c ∈ calls) :
    ∃ g ∈ batchesByMode calls, c ∈ g.2 :=
  foldGroups_adds calls [] c h

lemma mem_chunkList {α : Type} : ∀ (k : Nat) (l : List α) (x : α), x ∈ l →
    ∃ ch ∈ chunkList k l, x ∈ ch
  | _, [], _, h => absurd h (List.not_mem_nil _)
  | 0, y :: ys, x, h => by
    simp only [chunkList]
    exact ⟨y :: ys, List.mem_singleton_self _, h⟩
  | k + 1, y :: ys, x, h => by
    have hsplit : x ∈ (y :: ys).take (k + 1) ++ (y :: ys).drop (k + 1) := by
      rw [List.take_append_drop]; exact h
    simp only [chunkList]
    rcases List.mem_append.mp hsplit with htake | hdrop
    · exact ⟨(y :: ys).take (k + 1), List.mem_cons_self _ _, htake⟩
    · rcases mem_chunkList (k + 1) ((y :: ys).drop (k + 1)) x hdrop with ⟨ch, hch, hx⟩
      exact ⟨ch, List.mem_cons_of_mem _ hch, hx⟩
termination_by _ l => l.length
decreasing_by simp; omega

lemma mem_schedulerBatches {calls : List GenerateCall} {c : GenerateCall}
    (h : c ∈ calls) (k : Nat) :
    ∃ b ∈ schedulerBatches calls k, c ∈ b := by
  rcases mem_batchesByMode h with ⟨g, hg, hx⟩
  unfold schedulerBatches
  -- fold invariant: once `g` is consumed, a batch containing `x` is in the
  -- accumulator, and batches in the accumulator survive the rest of the fold
  suffices haux : ∀ (groups : List (String × List GenerateCall))
      (acc : List (List GenerateCall)),
      (∃ b ∈ acc, c ∈ b) ∨ (∃ g' ∈ groups, c ∈ g'.2) →
      ∃ b ∈ groups.foldl
        (fun acc g =>
          if g.2.length > k then acc ++ chunkList k g.2 else acc ++ [g.2]) acc,
        c ∈ b by
    exact haux (batchesByMode calls) [] (Or.inr ⟨g, hg, hx⟩)
  intro groups
  induction groups with
  | nil =>
    intro acc h'
    rcases h' with h' | ⟨g', hg', _⟩
    · exact h'
    · cases hg'
  | cons gr rest ih =>
    intro acc h'
    simp only [List.foldl_cons]
    rcases h' with ⟨b, hb, hxb⟩ | ⟨g', hg', hxg⟩
    · apply ih
      left
      exact ⟨b, by split <;> exact List.mem_append_left _ hb, hxb⟩
    · rcases List.mem_cons.mp hg' with rfl | hg'rest
      · apply ih
        left
        split
        · rcases mem_chunkList k _ c hxg with ⟨ch, hch, hxch⟩
          exact ⟨ch, List.mem_append_right _ hch, hxch⟩
        · exact ⟨g'.2, List.mem_append_right _ (List.mem_singleton_self _), hxg⟩
      · apply ih
        right
        exact ⟨g', hg'rest, hxg⟩

/-- A call whose `cancelled` flag is set before submission, for C3. -/
def c3Call : GenerateCall :=
  { prompt := [4], logit_bias := [], kwargs := [], stream_id := 9, result_queue := 1,
    cancelled := true }

/-- **C3 counterexample.** A call cancelled before `Scheduler.put` is NOT
discarded by batch assembly: `batches` on a queue holding exactly that
call emits a batch containing it — refuting the claim that the produced
batches never contain a call cancelled before assembly. -/
theorem claim3_counterexample :
    c3Call.cancelled = true ∧
    schedulerBatches [c3Call] 8 = [[c3Call]] ∧
    ∃ b ∈ schedulerBatches [c3Call] 8, c3Call ∈ b := by
  refine ⟨rfl, by decide, ?_⟩
  exact ⟨[c3Call], by decide, by decide⟩

/-- **C3 (amended).** `Scheduler.batches` performs no cancellation
filtering: every call drained from the queue — including one whose
`cancelled` flag was already set when it was submitted via `put` — appears
in one of the produced batches.  (Cancellation only takes effect later,
via the batch-wide cancellation check in the streamer.) -/
theorem claim3_batches_keep_cancelled_calls (calls : List GenerateCall)
    (max_batch_size : Nat) (c : GenerateCall) (hc : c ∈ calls) :
    ∃ b ∈ schedulerBatches calls max_batch_size, c ∈ b :=
  mem_schedulerBatches hc max_batch_size

/-- Witness for the amended C3 at the concrete cancelled call. -/
theorem claim3_batches_keep_cancelled_calls_witness :
    ∃ b ∈ schedulerBatches [c3Call] 8, c3Call ∈ b :=
  claim3_batches_keep_cancelled_calls [c3Call] 8 c3Call (List.mem_singleton_self _)

/-- The mutable fields of a `Scheduler` (lines 197–226) that the registry
operations read and write: the model identity, the pending-call queue, the
user set (session handles modelled by numeric ids), the `last_use`
timestamp (numeric), and the kill signal.  (The worker thread and the rate
meter are runtime state outside these claims.) -/
structure SchedState where
  model_identifier : String
  model_args : PyDict
  queue : List GenerateCall
  users : List Nat
  last_use : Nat
  kill_event : Bool
deriving DecidableEq, Repr

/-- `Scheduler.unregister` (lines 375–378): only when `user` is present is
it removed and `last_use` refreshed; `now` is the value `time.time()`
would return. -/
def unregister (s : SchedState) (user : Nat) (now : Nat) : SchedState :=
  if user ∈ s.users then
    { s with users := s.users.erase user, last_use := now }
  else s

/-- Scheduler state used by the C9 counterexample: empty `users`,
`last_use = 0`. -/
def c9Sched : SchedState :=
  { model_identifier := "m", model_args := [], queue := [], users := [],
    last_use := 0, kill_event := false }

/-- **C9 counterexample.** `unregister` with a user that is not in the
`users` set does NOT update `last_use`: with `last_use = 0` and current
time `5`, the timestamp stays `0` — refuting the claim that every
`unregister` call updates `last_use` to the current time. -/
theorem claim9_counterexample :
    (1 ∉ c9Sched.users) ∧
    (unregister c9Sched 1 5).last_use = 0 ∧
    (unregister c9Sched 1 5).last_use ≠ 5 := by
  decide

/-- **C9 (amended).** `unregister user` removes `user` and refreshes
`last_use` exactly when `user` is in the `users` set, and otherwise leaves
the state unchanged; in both cases the queue, model identifier, model args
and kill signal are untouched. -/
theorem claim9_unregister_effect (s : SchedState) (user now : Nat) :
    (unregister s user now).last_use = (if user ∈ s.users then now else s.last_use) ∧
    (unregister s user now).users =
      (if user ∈ s.users then s.users.erase user else s.users) ∧
    (unregister s user now).queue = s.queue ∧
    (unregister s user now).model_identifier = s.model_identifier ∧
    (unregister s user now).model_args = s.model_args ∧
    (unregister s user now).kill_event = s.kill_event := by
  unfold unregister
  split <;> simp_all

/-- Length-prefixed encoding of a string: a unary length prefix, a colon,
then the characters. -/
def encCharsStr (s : String) : List Char :=
  List.replicate s.length 'L' ++ ':' :: s.data

/-- Tagged encoding of a `PyVal`. -/
def encCharsVal : PyVal → List Char
  | .vBool b => ['B', if b then '1' else '0']
  | .vInt n => 'I' :: (if n < 0 then '-' else '+') :: (List.replicate n.natAbs 'L' ++ [';'])
  | .vStr s => 'S' :: encCharsStr s

/-- Encoding of one dict entry: the key then the value. -/
def encEntry (kv : String × PyVal) : List Char :=
  encCharsStr kv.1 ++ encCharsVal kv.2

/-- Modelled from the semantics of Python's `pickle.dumps` as applied to
the string-keyed `model_args` dict (line 358): a deterministic byte string
that serializes the dict's entries in **insertion order** with unambiguous
framing, so distinct ordered entry sequences yield distinct bytes — and
differently ordered but semantically equal dicts yield different bytes.
The trailing `.hex()` of the source is a bijection on byte strings and is
folded into the encoding. -/
def pickleDumps (d : PyDict) : String :=
  String.mk (d.foldr (fun kv acc => encEntry kv ++ acc) [])

/-- The registry key `(model_identifier, pickle.dumps(model_args).hex())`
of `Scheduler.instance` and `Scheduler.dealloc` (lines 358 and 382). -/
def schedulerKey (model_identifier : String) (model_args : PyDict) : String × String :=
  (model_identifier, pickleDumps model_args)

/-- The key a scheduler's `dealloc` recomputes from its own fields
(line 382). -/
def SchedState.keyOf (s : SchedState) : String × String :=
  schedulerKey s.model_identifier s.model_args

/-- The process-wide `Scheduler._instances` table: an insertion-ordered
mapping from registry keys to scheduler states. -/
abbrev Registry := List ((String × String) × SchedState)

/-- `Scheduler._instances[k]` as a partial lookup. -/
def regLookup (reg : Registry) (k : String × String) : Option SchedState :=
  (reg.find? (fun kv => kv.1 == k)).map (·.2)

/-- `Scheduler._instances[k].dealloc()` as it affects the registry
(lines 380–387 and 402–403): look the scheduler up and pop the key it
recomputes from its own fields.  A failed lookup raises `KeyError` in
Python; it is modelled as a no-op and is unreachable from `gc`, which only
passes keys present in the registry. -/
def deallocKey (reg : Registry) (k : String × String) : Registry :=
  match regLookup reg k with
  | some s => reg.filter (fun kv => kv.1 != s.keyOf)
  | none => reg

/-- `Scheduler.gc` (lines 389–403): when at least `n` schedulers are
loaded, deallocate every scheduler with no users. -/
def gc (n : Nat) (reg : Registry) : Registry :=
  let total := reg.length
  let not_needed := (reg.filter (fun kv => kv.2.users.isEmpty)).map (·.1)
  if total ≥ n then not_needed.foldl deallocKey reg else reg

/-- Registry well-formedness: every scheduler is stored under the key it
recomputes, and keys are unique — the invariant `Scheduler.instance`
maintains. -/
def RegWF (reg : Registry) : Prop :=
  (∀ kv ∈ reg, kv.2.keyOf = kv.1) ∧ (reg.map (·.1)).Nodup

instance (reg : Registry) : Decidable (RegWF reg) := by
  unfold RegWF
  infer_instance

lemma deallocKey_eq_filter {reg : Registry} {k : String × String} (hwf : RegWF reg) :
    deallocKey reg k = reg.filter (fun kv => kv.1 != k) := by
  unfold deallocKey regLookup
  cases hfind : reg.find? (fun kv => kv.1 == k) with
  | none =>
    have hnone := List.find?_eq_none.mp hfind
    show reg = reg.filter (fun kv => kv.1 != k)
    refine (List.filter_eq_self.mpr ?_).symm
    intro kv hkv
    have hne := hnone kv hkv
    have hfalse : (kv.1 == k) = false := by simpa using hne
    simp [bne, hfalse]
  | some kv =>
    have hmem := List.mem_of_find?_eq_some hfind
    have hkey : (kv.1 == k) = true := by
      have h2 := List.find?_some hfind
      simpa using h2
    have hk : kv.2.keyOf = k := by
      rw [hwf.1 kv hmem]
      exact eq_of_beq hkey
    show reg.filter (fun e => e.1 != kv.2.keyOf) = reg.filter (fun kv => kv.1 != k)
    rw [hk]

lemma RegWF.filter {reg : Registry} (hwf : RegWF reg)
    (p : (String × String) × SchedState → Bool) : RegWF (reg.filter p) := by
  constructor
  · exact fun kv hkv => hwf.1 kv (List.mem_of_mem_filter hkv)
  · exact hwf.2.sublist (List.Sublist.map _ (List.filter_sublist reg))

lemma foldl_deallocKey (ks : List (String × String)) (reg : Registry) (hwf : RegWF reg) :
    ks.foldl deallocKey reg = reg.filter (fun kv => !(ks.contains kv.1)) := by
  induction ks generalizing reg with
  | nil =>
    simp only [List.foldl_nil]
    exact (List.filter_eq_self.mpr (fun kv _ => by simp)).symm
  | cons k ks ih =>
    simp only [List.foldl_cons]
    rw [deallocKey_eq_filter hwf, ih _ (hwf.filter _), List.filter_filter]
    refine List.filter_congr (fun kv _ => ?_)
    by_cases h : kv.1 = k <;>
      simp [h, List.contains_cons, Bool.not_or, bne, Bool.and_comm]

lemma eq_of_fst_eq_of_nodup {α β : Type} [DecidableEq α] {l : List (α × β)}
    (h : (l.map Prod.fst).Nodup) {a b : α × β}
    (h1 : a ∈ l) (h2 : b ∈ l) (hfst : a.1 = b.1) : a = b := by
  induction l with
  | nil => cases h1
  | cons x xs ih =>
    rw [List.map_cons, List.nodup_cons] at h
    rcases List.mem_cons.mp h1 with rfl | h1' <;>
      rcases List.mem_cons.mp h2 with rfl | h2'
    · rfl
    · exact absurd (hfst ▸ List.mem_map_of_mem Prod.fst h2') h.1
    · exact absurd (hfst ▸ List.mem_map_of_mem Prod.fst h1') h.1
    · exact ih h.2 h1' h2'

/-- **C8.** Under the registry invariant: `gc 0` removes every scheduler
whose `users` set is empty; `gc n` removes nothing when fewer than `n`
schedulers are loaded; and a scheduler with a non-empty `users` set is
never removed by `gc`. -/
theorem claim8_gc_eviction (reg : Registry) (n : Nat) (hwf : RegWF reg) :
    (∀ kv ∈ reg, kv.2.users = [] → kv ∉ gc 0 reg) ∧
    (reg.length < n → gc n reg = reg) ∧
    (∀ kv ∈ reg, kv.2.users ≠ [] → kv ∈ gc n reg) := by
  have hfold : ∀ m, reg.length ≥ m →
      gc m reg = reg.filter
        (fun kv => !(((reg.filter (fun e => e.2.users.isEmpty)).map (·.1)).contains kv.1)) := by
    intro m hm
    unfold gc
    rw [if_pos hm]
    exact foldl_deallocKey _ reg hwf
  refine ⟨?_, ?_, ?_⟩
  · intro kv hkv hempty hmem
    rw [hfold 0 (Nat.zero_le _)] at hmem
    have hpred := List.of_mem_filter hmem
    have hin : kv.1 ∈ (reg.filter (fun e => e.2.users.isEmpty)).map (·.1) :=
      List.mem_map_of_mem _ (List.mem_filter.mpr ⟨hkv, by simp [hempty]⟩)
    have hcont : ((reg.filter (fun e => e.2.users.isEmpty)).map (·.1)).contains kv.1 = true :=
      List.elem_iff.mpr hin
    rw [hcont] at hpred
    exact absurd hpred (by decide)
  · intro hlt
    unfold gc
    rw [if_neg (by omega)]
  · intro kv hkv hne
    by_cases hm : reg.length ≥ n
    · rw [hfold n hm]
      refine List.mem_filter.mpr ⟨hkv, ?_⟩
      have hnotin : kv.1 ∉ (reg.filter (fun e => e.2.users.isEmpty)).map (·.1) := by
        intro hk'
        rcases List.mem_map.mp hk' with ⟨kv', hkv', hfst⟩
        have hkv'mem := List.mem_of_mem_filter hkv'
        have hkv'emp := List.of_mem_filter hkv'
        have heq : kv = kv' := eq_of_fst_eq_of_nodup hwf.2 hkv hkv'mem hfst.symm
        subst heq
        rw [List.isEmpty_iff] at hkv'emp
        exact hne hkv'emp
      have hcf : ((reg.filter (fun e => e.2.users.isEmpty)).map (·.1)).contains kv.1 = false :=
        Bool.eq_false_iff.mpr (fun hc => hnotin (List.elem_iff.mp hc))
      rw [hcf]
      rfl
    · unfold gc
      rw [if_neg hm]
      exact hkv

/-- A scheduler with no users, for the C8 witness registry. -/
def c8SchedA : SchedState :=
  { model_identifier := "a", model_args := [], queue := [], users := [],
    last_use := 0, kill_event := false }

/-- A scheduler with one user, for the C8 witness registry. -/
def c8SchedB : SchedState :=
  { model_identifier := "b", model_args := [("x", .vInt 1)], queue := [],
    users := [7], last_use := 0, kill_event := false }

/-- The C8 witness registry: two well-formed entries. -/
def c8Reg : Registry := [(c8SchedA.keyOf, c8SchedA), (c8SchedB.keyOf, c8SchedB)]

/-- Witness for C8 at a concrete two-scheduler registry. -/
theorem claim8_gc_eviction_witness :
    (∀ kv ∈ c8Reg, kv.2.users = [] → kv ∉ gc 0 c8Reg) ∧
    (c8Reg.length < 3 → gc 3 c8Reg = c8Reg) ∧
    (∀ kv ∈ c8Reg, kv.2.users ≠ [] → kv ∈ gc 3 c8Reg) :=
  claim8_gc_eviction c8Reg 3 (by decide)

/-- The observable outcome of executing one batch against the backend
(lines 328–345): completion, the cancellation signal `InterruptedError`
(raised by the streamer at line 159 and caught at line 346), or any other
exception with message `msg` (caught at line 349). -/
inductive BatchOutcome where
  | ok
  | interrupted
  | failure (msg : String)
deriving DecidableEq, Repr

/-- The error payload `GenerateCall.error` puts on the call's result queue
(lines 37–41). -/
structure ErrPayload where
  stream_id : Nat
  error : String
deriving DecidableEq, Repr

/-- `c.error(msg)`: the receiving call paired with the payload enqueued on
its result queue. -/
def callError (c : GenerateCall) (msg : String) : GenerateCall × ErrPayload :=
  (c, { stream_id := c.stream_id, error := msg })

/-- The error payloads one iteration of `Scheduler.process_batch` emits
for its batch (lines 346–354): on `InterruptedError` every call of the
batch receives `"lmtp.cancelled"`; on any other exception every call
receives the failure message; on success none. -/
def processBatchErrors (batch : List GenerateCall) :
    BatchOutcome → List (GenerateCall × ErrPayload)
  | .ok => []
  | .interrupted => batch.map (fun c => callError c "lmtp.cancelled")
  | .failure msg =>
    batch.map (fun c => callError c ("failed to generate tokens '" ++ msg ++ "'"))

/-- The `for batch in self.batches(...)` loop of `process_batch` with its
per-iteration `try/except`: every batch is processed and each outcome's
error payloads are emitted in order; an exception never escapes an
iteration. -/
def workerEmissions : List (List GenerateCall × BatchOutcome) →
    List (GenerateCall × ErrPayload)
  | [] => []
  | (batch, outcome) :: rest => processBatchErrors batch outcome ++ workerEmissions rest

/-- **C7.** Error payloads are confined to the failing batch and delivered
exhaustively: (1) every emitted error payload belongs to a call of a batch
whose outcome raised, and is the `"lmtp.cancelled"` payload for the
cancellation signal and the `"failed to generate tokens '<reason>'"`
payload otherwise; (2) every call of a raising batch receives its payload
even when other batches of the same worker run fail or succeed around it
(the worker continues past a failed batch); (3) for every call, the number
of error payloads it receives equals its number of occurrences in raising
batches — in particular exactly one when it occurs once in one failing
batch. -/
theorem claim7_error_confinement (bs : List (List GenerateCall × BatchOutcome)) :
    (∀ e ∈ workerEmissions bs, ∃ bo ∈ bs, e.1 ∈ bo.1 ∧
      ((bo.2 = .interrupted ∧
          e.2 = { stream_id := e.1.stream_id, error := "lmtp.cancelled" }) ∨
        (∃ msg, bo.2 = .failure msg ∧
          e.2 = { stream_id := e.1.stream_id,
                  error := "failed to generate tokens '" ++ msg ++ "'" }))) ∧
    (∀ bo ∈ bs, ∀ c ∈ bo.1,
      (∀ msg, bo.2 = .failure msg →
        callError c ("failed to generate tokens '" ++ msg ++ "'") ∈ workerEmissions bs) ∧
      (bo.2 = .interrupted → callError c "lmtp.cancelled" ∈ workerEmissions bs)) ∧
    (∀ c : GenerateCall,
      (workerEmissions bs).countP (fun e => e.1 == c) =
        ((bs.filter (fun bo => bo.2 != .ok)).map (·.1)).flatten.count c) := by
  refine ⟨?_, ?_, ?_⟩
  · intro e he
    induction bs with
    | nil => cases he
    | cons bo rest ih =>
      rcases bo with ⟨batch, outcome⟩
      rcases List.mem_append.mp he with hl | hr
      · cases outcome with
        | ok => cases hl
        | interrupted =>
          rcases List.mem_map.mp hl with ⟨c, hc, rfl⟩
          exact ⟨(batch, .interrupted), List.mem_cons_self _ _, hc, Or.inl ⟨rfl, rfl⟩⟩
        | failure msg =>
          rcases List.mem_map.mp hl with ⟨c, hc, rfl⟩
          exact ⟨(batch, .failure msg), List.mem_cons_self _ _, hc,
            Or.inr ⟨msg, rfl, rfl⟩⟩
      · rcases ih hr with ⟨bo', hbo', hmem, hshape⟩
        exact ⟨bo', List.mem_cons_of_mem _ hbo', hmem, hshape⟩
  · intro bo hbo c hc
    induction bs with
    | nil => cases hbo
    | cons bo0 rest ih =>
      rcases List.mem_cons.mp hbo with rfl | hbo'
      · refine ⟨?_, ?_⟩
        · intro msg hmsg
          refine List.mem_append_left _ ?_
          rw [show bo.2 = BatchOutcome.failure msg from hmsg]
          exact List.mem_map_of_mem _ hc
        · intro hint
          refine List.mem_append_left _ ?_
          rw [show bo.2 = BatchOutcome.interrupted from hint]
          exact List.mem_map_of_mem _ hc
      · rcases ih hbo' with ⟨h1, h2⟩
        exact ⟨fun msg hmsg => List.mem_append_right _ (h1 msg hmsg),
          fun hint => List.mem_append_right _ (h2 hint)⟩
  · intro c
    induction bs with
    | nil => rfl
    | cons bo rest ih =>
      rcases bo with ⟨batch, outcome⟩
      rw [show workerEmissions ((batch, outcome) :: rest) =
        processBatchErrors batch outcome ++ workerEmissions rest from rfl]
      rw [List.countP_append, ih]
      cases outcome with
      | ok => simp [processBatchErrors]
      | interrupted =>
        simp only [processBatchErrors, List.countP_map, List.filter_cons]
        norm_num
        rw [if_neg (by decide), List.map_cons, List.flatten_cons, List.count_append]
        congr 1
      | failure msg =>
        simp only [processBatchErrors, List.countP_map, List.filter_cons]
        norm_num
        rw [if_neg (fun h => BatchOutcome.noConfusion h), List.map_cons,
          List.flatten_cons, List.count_append]
        congr 1

/-- Call of the cancelled batch in the C7 witness. -/
def c7CallA : GenerateCall :=
  { prompt := [1], logit_bias := [], kwargs := [], stream_id := 11, result_queue := 4 }

/-- Call of the failing batch in the C7 witness. -/
def c7CallB : GenerateCall :=
  { prompt := [2], logit_bias := [], kwargs := [], stream_id := 12, result_queue := 4 }

/-- Witness for C7: in a worker run with an interrupted batch followed by
a failing batch, the second batch's call still receives its error payload
(the worker continued past the first batch). -/
theorem claim7_error_confinement_witness :
    callError c7CallB "failed to generate tokens 'boom'" ∈
      workerEmissions [([c7CallA], .interrupted), ([c7CallB], .failure "boom")] :=
  ((claim7_error_confinement
      [([c7CallA], .interrupted), ([c7CallB], .failure "boom")]).2.1
    ([c7CallB], .failure "boom")
    (List.mem_cons_of_mem _ (List.mem_singleton_self _))
    c7CallB (List.mem_singleton_self _)).1 "boom" rfl

lemma pyGet_dictSet_self (d : PyDict) (k : String) (v dflt : PyVal) :
    pyGet (pyDictSet d k v) k dflt = v := by
  induction d with
  | nil => simp [pyDictSet, pyGet]
  | cons kv0 rest ih =>
    by_cases h0 : kv0.1 = k
    · simp [pyDictSet, pyGet, h0]
    · have h0' : (kv0.1 == k) = false := beq_eq_false_iff_ne.mpr h0
      cases h1 : rest.any (fun kv => kv.1 == k) with
      | true =>
        simp only [pyDictSet, h1, if_true] at ih
        simp at ih
        simp [pyDictSet, pyGet, List.any_cons, h0', h1, h0, ih]
      | false =>
        simp only [pyDictSet, h1, Bool.false_eq_true, if_false] at ih
        simp [pyDictSet, pyGet, List.any_cons, h0', h1, h0, ih]

lemma pyGet_dictSet_ne (d : PyDict) (k k' : String) (v dflt : PyVal) (h : k ≠ k') :
    pyGet (pyDictSet d k v) k' dflt = pyGet d k' dflt := by
  have hkk : (k == k') = false := beq_eq_false_iff_ne.mpr h
  induction d with
  | nil => simp [pyDictSet, pyGet, hkk]
  | cons kv0 rest ih =>
    by_cases h0 : kv0.1 = k
    · have h0' : (kv0.1 == k) = true := beq_iff_eq.mpr h0
      have h0k' : (kv0.1 == k') = false := by
        rw [h0]; exact hkk
      simp only [pyDictSet, List.any_cons, h0', Bool.true_or, if_true, List.map_cons,
        if_pos h0']
      simp only [pyGet, hkk, h0k', if_false]
      -- remaining entries of the map leave other keys unchanged
      clear ih
      induction rest with
      | nil => simp [pyGet]
      | cons kv1 rest1 ih1 =>
        by_cases h1 : kv1.1 = k
        · have h1' : (kv1.1 == k) = true := beq_iff_eq.mpr h1
          have h1k' : (kv1.1 == k') = false := by rw [h1]; exact hkk
          simpa [pyGet, h1', h1k', hkk] using ih1
        · have h1' : (kv1.1 == k) = false := beq_eq_false_iff_ne.mpr h1
          by_cases h2 : kv1.1 = k'
          · simp [pyGet, h1', beq_iff_eq.mpr h2]
          · have h2' : (kv1.1 == k') = false := beq_eq_false_iff_ne.mpr h2
            simpa [pyGet, h1', h2'] using ih1
    · have h0' : (kv0.1 == k) = false := beq_eq_false_iff_ne.mpr h0
      cases h1 : rest.any (fun kv => kv.1 == k) with
      | true =>
        simp only [pyDictSet, h1, if_true] at ih
        simp at ih
        by_cases h2 : kv0.1 = k'
        · simp [pyDictSet, pyGet, List.any_cons, h0', h1, h0, h2, Ne.symm h, ih]
        · simp [pyDictSet, pyGet, List.any_cons, h0', h1, h0, h2, ih]
      | false =>
        simp only [pyDictSet, h1, Bool.false_eq_true, if_false] at ih
        by_cases h2 : kv0.1 = k'
        · simp [pyDictSet, pyGet, List.any_cons, h0', h1, h0, h2, Ne.symm h, ih]
        · simp [pyDictSet, pyGet, List.any_cons, h0', h1, h0, h2, ih]

/-- The token payload of `ScoreStreamer.log_token` (lines 125–130). -/
structure ScorePayload where
  token : Nat
  stream_id : Nat
  logprob : Int
  finish_reason : Option String
deriving DecidableEq, Repr

instance : Inhabited GenerateCall :=
  ⟨{ prompt := [], logit_bias := [], kwargs := [], stream_id := 0, result_queue := 0 }⟩

/-- The inner loop of `ScoreStreamer.log_token` for one row (lines
119–131): slice scores and token ids from the scoring offset, then emit
one payload per scored position, with `"stop"` on the last one. -/
def scoreRowPayloads (offset : Nat) (scoresRow : List Int) (idsRow : List Nat)
    (call : GenerateCall) : List ScorePayload :=
  let scores := scoresRow.drop offset
  let scored_ids := idsRow.drop offset
  (scores.zip scored_ids).enum.map (fun jp =>
    { token := jp.2.2, stream_id := call.stream_id, logprob := jp.2.1,
      finish_reason := if jp.1 = scores.length - 1 then some "stop" else none })

/-- `ScoreStreamer.log_token` (lines 114–131): for every row of the score
tensor, emit that row's payloads onto the result queue of the row's call.
Python raises on out-of-range indexing; the defaults used here are
unreachable under the shape hypotheses of the theorems below. -/
def scoreStreamerEmissions (b : GenerateBatch) (all_scores : List (List Int)) :
    List (Nat × ScorePayload) :=
  (List.range all_scores.length).flatMap (fun i =>
    let offset := (b.scoring_offsets.getD []).getD i 0
    let scoresRow := all_scores.getD i []
    let idsRow := b.input_ids.getD i []
    let call := b.calls.getD i default
    (scoreRowPayloads offset scoresRow idsRow call).map (fun pl => (call.result_queue, pl)))

/-- The `SCORE` branch of `TokenSession.handle` (lines 439–454): set
`kwargs["score"] = True` and `kwargs["scoring_offset"] = len(prompt)`, and
submit a call whose prompt is `prompt ++ scored` (logit bias `{}`). -/
def handleScore (p s : List Nat) (stream_id : Nat) (kwargs0 : PyDict)
    (queueId : Nat) : GenerateCall :=
  let kwargs := pyDictSet kwargs0 "score" (.vBool true)
  let kwargs := pyDictSet kwargs "scoring_offset" (.vInt p.length)
  { prompt := p ++ s, logit_bias := [], kwargs := kwargs, stream_id := stream_id,
    result_queue := queueId }

lemma handleScore_isScore (p s : List Nat) (sid : Nat) (kw : PyDict) (q : Nat) :
    (handleScore p s sid kw q).isScore = true := by
  unfold handleScore GenerateCall.isScore
  rw [pyGet_dictSet_ne _ _ _ _ _ (by decide), pyGet_dictSet_self]
  rfl

lemma handleScore_offset (p s : List Nat) (sid : Nat) (kw : PyDict) (q : Nat) :
    pyGetNat (handleScore p s sid kw q).kwargs "scoring_offset" 0 = p.length := by
  unfold handleScore pyGetNat pyGetInt
  rw [pyGet_dictSet_self]
  simp

/-- **C4.** A `SCORE` command with prompt `p` and scored tokens `s`
submits a call with prompt `p ++ s` and scoring offset `len p`; in a score
batch the row's effective offset is `len p` plus the row's left-padding,
and `ScoreStreamer` emits exactly `len s` payloads for that call — the
`j`-th carrying token `s[j]` with the score at that position as `logprob`
— with `finish_reason = "stop"` exactly on the last payload. -/
theorem claim4_score_offsets_and_streaming
    (calls : List GenerateCall) (i : Nat) (p s : List Nat) (sid q : Nat) (kw : PyDict)
    (hi : calls[i]? = some (handleScore p s sid kw q))
    (hscore : ∀ c ∈ calls, c.isScore = true)
    (scoresRow : List Int)
    (hlen : scoresRow.length = maxPromptLen calls) :
    (handleScore p s sid kw q).prompt = p ++ s ∧
    pyGetNat (handleScore p s sid kw q).kwargs "scoring_offset" 0 = p.length ∧
    ∃ b, GenerateBatch.from_calls calls = some b ∧
      ∃ offs, b.scoring_offsets = some offs ∧
        offs[i]? = some (p.length + (maxPromptLen calls - (p ++ s).length)) ∧
        ∃ idsRow, b.input_ids[i]? = some idsRow ∧
          (scoreRowPayloads (p.length + (maxPromptLen calls - (p ++ s).length))
              scoresRow idsRow (handleScore p s sid kw q)).length = s.length ∧
          (∀ j tok, s[j]? = some tok →
            ∃ sc, scoresRow[(p.length + (maxPromptLen calls - (p ++ s).length)) + j]? =
                some sc ∧
              (scoreRowPayloads (p.length + (maxPromptLen calls - (p ++ s).length))
                  scoresRow idsRow (handleScore p s sid kw q))[j]? = some
                { token := tok, stream_id := sid, logprob := sc,
                  finish_reason := if j = s.length - 1 then some "stop" else none }) ∧
          (∀ j pl,
            (scoreRowPayloads (p.length + (maxPromptLen calls - (p ++ s).length))
                scoresRow idsRow (handleScore p s sid kw q))[j]? = some pl →
            (pl.finish_reason = some "stop" ↔ j = s.length - 1)) := by
  have hcall : handleScore p s sid kw q ∈ calls := List.getElem?_mem hi
  obtain ⟨c0, tl, hcons⟩ : ∃ c0 tl, calls = c0 :: tl := by
    cases calls with
    | nil => cases hcall
    | cons c0 tl => exact ⟨c0, tl, rfl⟩
  have hall : calls.all (·.isScore) = true :=
    List.all_eq_true.mpr (fun c hc => hscore c hc)
  have hany : calls.any (·.isScore) = true :=
    List.any_eq_true.mpr ⟨_, hcall, handleScore_isScore p s sid kw q⟩
  have hb := from_calls_eq hcons (fun _ => hall)
  set L := maxPromptLen calls with hL
  set pad := L - (p ++ s).length with hpad
  set offset := p.length + pad with hoffset
  have hple : (p ++ s).length ≤ L := prompt_len_le_maxPromptLen hcall
  refine ⟨rfl, handleScore_offset p s sid kw q, _, hb, ?_⟩
  rw [hany]
  refine ⟨_, rfl, ?_, ?_⟩
  · have h1 := getElem?_map_of_getElem?
      (fun c => pyGetNat c.kwargs "scoring_offset" 0 + (L - c.prompt.length)) hi
    have hpr : (handleScore p s sid kw q).prompt = p ++ s := rfl
    rw [h1]
    simp only [hpr, handleScore_offset p s sid kw q]
  · refine ⟨_, getElem?_map_of_getElem?
      (fun c => List.replicate (L - c.prompt.length) 0 ++ c.prompt) hi, ?_⟩
    have hprompt : (handleScore p s sid kw q).prompt = p ++ s := rfl
    rw [hprompt]
    -- the scored ids of row `i` are exactly `s`
    have hids : (List.replicate pad 0 ++ (p ++ s)).drop offset = s := by
      rw [show List.replicate pad 0 ++ (p ++ s) =
        (List.replicate pad 0 ++ p) ++ s from by rw [List.append_assoc]]
      refine List.drop_left' ?_
      simp only [List.length_append, List.length_replicate]
      omega
    have hslen : (scoresRow.drop offset).length = s.length := by
      rw [List.length_drop, hlen]
      have : (p ++ s).length = p.length + s.length := List.length_append _ _
      omega
    have hlen_payloads :
        (scoreRowPayloads offset scoresRow (List.replicate pad 0 ++ (p ++ s))
          (handleScore p s sid kw q)).length = s.length := by
      unfold scoreRowPayloads
      rw [hids]
      simp only [List.length_map, List.enum_length, List.length_zip, hslen,
        Nat.min_self]
    refine ⟨hlen_payloads, ?_, ?_⟩
    · intro j tok htok
      have hjs : j < s.length := by
        rcases List.getElem?_eq_some_iff.mp htok with ⟨hj, _⟩
        exact hj
      have hjsc : j < (scoresRow.drop offset).length := by rw [hslen]; exact hjs
      obtain ⟨sc, hsc⟩ : ∃ sc, (scoresRow.drop offset)[j]? = some sc := by
        rcases List.getElem?_eq_some_iff.mpr ⟨hjsc, rfl⟩ with h
        exact ⟨_, h⟩
      refine ⟨sc, by rw [← List.getElem?_drop]; exact hsc, ?_⟩
      unfold scoreRowPayloads
      rw [hids]
      have hzip : ((scoresRow.drop offset).zip s)[j]? = some (sc, tok) :=
        List.getElem?_zip_eq_some.mpr ⟨hsc, htok⟩
      rw [List.getElem?_map, List.getElem?_enum, hzip]
      simp only [Option.map_some']
      rw [hslen]
      rfl
    · intro j pl hpl
      have hjlt : j < s.length := by
        have := List.getElem?_eq_some_iff.mp hpl
        rcases this with ⟨hj, _⟩
        rw [hlen_payloads] at hj
        exact hj
      obtain ⟨tok, htok⟩ : ∃ tok, s[j]? = some tok :=
        ⟨_, List.getElem?_eq_some_iff.mpr ⟨hjlt, rfl⟩⟩
      have hjsc : j < (scoresRow.drop offset).length := by rw [hslen]; exact hjlt
      obtain ⟨sc, hsc⟩ : ∃ sc, (scoresRow.drop offset)[j]? = some sc :=
        ⟨_, List.getElem?_eq_some_iff.mpr ⟨hjsc, rfl⟩⟩
      have hchar : (scoreRowPayloads offset scoresRow
          (List.replicate pad 0 ++ (p ++ s)) (handleScore p s sid kw q))[j]? = some
          { token := tok, stream_id := sid, logprob := sc,
            finish_reason := if j = s.length - 1 then some "stop" else none } := by
        unfold scoreRowPayloads
        rw [hids]
        have hzip : ((scoresRow.drop offset).zip s)[j]? = some (sc, tok) :=
          List.getElem?_zip_eq_some.mpr ⟨hsc, htok⟩
        rw [List.getElem?_map, List.getElem?_enum, hzip]
        simp only [Option.map_some']
        rw [hslen]
        rfl
      rw [hchar] at hpl
      have hpl' := Option.some_inj.mp hpl
      subst hpl'
      by_cases hj : j = s.length - 1
      · simp [hj]
      · simp [hj]

/-- Witness for C4: a one-call score batch with prompt `[10]` and scored
tokens `[20, 21]`, scores `[-1, -2, -3]`. -/
theorem claim4_score_offsets_and_streaming_witness :
    (handleScore [10] [20, 21] 5 [] 0).prompt = [10] ++ [20, 21] ∧
    pyGetNat (handleScore [10] [20, 21] 5 [] 0).kwargs "scoring_offset" 0 =
      ([10] : List Nat).length ∧
    ∃ b, GenerateBatch.from_calls [handleScore [10] [20, 21] 5 [] 0] = some b ∧
      ∃ offs, b.scoring_offsets = some offs ∧
        offs[0]? = some (([10] : List Nat).length +
          (maxPromptLen [handleScore [10] [20, 21] 5 [] 0] -
            (([10] : List Nat) ++ [20, 21]).length)) ∧
        ∃ idsRow, b.input_ids[0]? = some idsRow ∧
          (scoreRowPayloads (([10] : List Nat).length +
              (maxPromptLen [handleScore [10] [20, 21] 5 [] 0] -
                (([10] : List Nat) ++ [20, 21]).length))
              [-1, -2, -3] idsRow (handleScore [10] [20, 21] 5 [] 0)).length =
            ([20, 21] : List Nat).length ∧
          (∀ j tok, ([20, 21] : List Nat)[j]? = some tok →
            ∃ sc, ([-1, -2, -3] : List Int)[(([10] : List Nat).length +
                (maxPromptLen [handleScore [10] [20, 21] 5 [] 0] -
                  (([10] : List Nat) ++ [20, 21]).length)) + j]? = some sc ∧
              (scoreRowPayloads (([10] : List Nat).length +
                  (maxPromptLen [handleScore [10] [20, 21] 5 [] 0] -
                    (([10] : List Nat) ++ [20, 21]).length))
                  [-1, -2, -3] idsRow (handleScore [10] [20, 21] 5 [] 0))[j]? = some
                { token := tok, stream_id := 5, logprob := sc,
                  finish_reason :=
                    if j = ([20, 21] : List Nat).length - 1 then some "stop" else none }) ∧
          (∀ j pl,
            (scoreRowPayloads (([10] : List Nat).length +
                (maxPromptLen [handleScore [10] [20, 21] 5 [] 0] -
                  (([10] : List Nat) ++ [20, 21]).length))
                [-1, -2, -3] idsRow (handleScore [10] [20, 21] 5 [] 0))[j]? = some pl →
            (pl.finish_reason = some "stop" ↔ j = ([20, 21] : List Nat).length - 1)) :=
  claim4_score_offsets_and_streaming [handleScore [10] [20, 21] 5 [] 0] 0
    [10] [20, 21] 5 0 [] rfl (by decide) [-1, -2, -3] (by decide)

/-- The candidate index with the greatest score, earliest index winning
ties. -/
def pickMaxIdx (row : List Int) : List Nat → Option Nat
  | [] => none
  | c :: cs =>
    match pickMaxIdx row cs with
    | none => some c
    | some m => if row.getD m 0 > row.getD c 0 then some m else some c

/-- Select the `k` largest entries, by index, in decreasing score order. -/
def topkIdxAux (row : List Int) : Nat → List Nat → List Nat
  | 0, _ => []
  | k + 1, cands =>
    match pickMaxIdx row cands with
    | none => []
    | some m => m :: topkIdxAux row k (cands.erase m)

/-- Modelled from the spec: `nputil.topk(last_scores, k, sorted=True)`
(line 164), the top-k selection over a row's vocabulary distribution whose
implementation lives in `lmql.utils.nputil` outside this repository slice.
It returns the indices of the `k` largest scores (distinct, sorted by
decreasing score) together with their scores. -/
def topkIdx (row : List Int) (k : Nat) : List Nat :=
  topkIdxAux row k (List.range row.length)

/-- A Python dict with integer keys (the `top_logprobs` mapping):
insertion-ordered, `d[k] = v` overwrites in place. -/
def pyIntDictSet (d : List (Nat × Int)) (k : Nat) (v : Int) : List (Nat × Int) :=
  if d.any (fun kv => kv.1 == k) then
    d.map (fun kv => if kv.1 == k then (k, v) else kv)
  else
    d ++ [(k, v)]

/-- A Python dict literal built from a sequence of key-value pairs, later
pairs overwriting earlier ones (`{a: x, **m}`). -/
def pyDictOfPairs (pairs : List (Nat × Int)) : List (Nat × Int) :=
  pairs.foldl (fun d kv => pyIntDictSet d kv.1 kv.2) []

/-- The token payload of `TokenStreamer.log_token` (lines 180–186). -/
structure TokenPayload where
  token : Nat
  stream_id : Nat
  logprob : Int
  finish_reason : Option String
  top_logprobs : List (Nat × Int)
deriving DecidableEq, Repr

/-- `max([c.kwargs.get("top_logprobs", 1) for c in self.batch.calls])`
(line 150). -/
def maxNumTopLogprobs (calls : List GenerateCall) : Nat :=
  pyMaxNat (calls.map (fun c => pyGetNat c.kwargs "top_logprobs" 1))

/-- The body of the per-row loop of `TokenStreamer.log_token` (lines
166–186) for one row: build the `top_logprobs` dict from the emitted token
and the full batch-wide top-k, then slice the top-k views to the call's
requested `top_logprobs` (lines 176–178; the sliced views are not used by
the emitted payload), then assemble the payload. -/
def tokenRowPayload (call : GenerateCall) (lastToken : Nat) (scoreRow : List Int)
    (maxNumTop : Nat) (eos : Nat) (last : Bool) : TokenPayload :=
  let tokens := topkIdx scoreRow maxNumTop
  let logprobs := tokens.map (fun t => scoreRow.getD t 0)
  let token_score := scoreRow.getD lastToken 0
  let top_logprobs := pyDictOfPairs ((lastToken, token_score) :: tokens.zip logprobs)
  let num_top_logprobs := pyGetNat call.kwargs "top_logprobs" 1
  let _logprobs_sliced := logprobs.take num_top_logprobs
  let _tokens_sliced := tokens.take num_top_logprobs
  { token := lastToken, stream_id := call.stream_id, logprob := token_score,
    finish_reason :=
      if lastToken = eos then some "stop" else if last then some "length" else none,
    top_logprobs := top_logprobs }

/-- `TokenStreamer.log_token` (lines 144–188): check batch-wide
cancellation (raising `InterruptedError` when every call is cancelled and
the backend supports cancellation), then emit one payload per row onto the
row's call's result queue.  `lastScores` is `scores[-1]`, the per-row
vocabulary scores of the final step; `input_ids` holds each row's
generated sequence so far.  (The `measure_token` rate-meter update touches
only scheduler metrics and is not modelled.) -/
def tokenStreamerEmissions (b : GenerateBatch) (cancels : Bool) (eos : Nat)
    (input_ids : List (List Nat)) (lastScores : List (List Int)) (last : Bool) :
    Except String (List (Nat × TokenPayload)) :=
  if b.batchCancelled && cancels then
    .error "inference calls cancelled"
  else
    .ok ((List.range input_ids.length).map (fun i =>
      let lastToken := (input_ids.getD i []).getLastD 0
      let scoreRow := lastScores.getD i []
      let call := b.calls.getD i default
      (call.result_queue,
        tokenRowPayload call lastToken scoreRow (maxNumTopLogprobs b.calls) eos last)))

/-- A call requesting 1 top logprob (the default), for C2. -/
def c2CallA : GenerateCall :=
  { prompt := [1], logit_bias := [], kwargs := [("top_logprobs", .vInt 1)],
    stream_id := 21, result_queue := 3 }

/-- A call requesting 3 top logprobs, for C2. -/
def c2CallB : GenerateCall :=
  { prompt := [1], logit_bias := [], kwargs := [("top_logprobs", .vInt 3)],
    stream_id := 22, result_queue := 3 }

/-- **C2 (failing-input evaluation).** In a batch where call A requests 1
top logprob and call B requests 3, the payload for call A (emitted token
`0`, scores `[10, 5, 3, 1]`) carries a `top_logprobs` mapping with **3**
entries — the batch-wide maximum — not the `max(1, 1) + 0 = 1` entries the
claim predicts from the per-call slice: the dict is built (line 171)
before the slice (lines 176–178), so the slice never affects the payload.
The emitted token's entry does equal the payload's `logprob`. -/
theorem claim2_top_logprobs_size_eval :
    maxNumTopLogprobs [c2CallA, c2CallB] = 3 ∧
    pyGetNat c2CallA.kwargs "top_logprobs" 1 = 1 ∧
    topkIdx [10, 5, 3, 1] (pyGetNat c2CallA.kwargs "top_logprobs" 1) = [0] ∧
    (tokenRowPayload c2CallA 0 [10, 5, 3, 1]
      (maxNumTopLogprobs [c2CallA, c2CallB]) 99 false).top_logprobs =
      [(0, 10), (1, 5), (2, 3)] ∧
    (tokenRowPayload c2CallA 0 [10, 5, 3, 1]
      (maxNumTopLogprobs [c2CallA, c2CallB]) 99 false).top_logprobs.length = 3 ∧
    (tokenRowPayload c2CallA 0 [10, 5, 3, 1]
      (maxNumTopLogprobs [c2CallA, c2CallB]) 99 false).logprob = 10 ∧
    max 1 (pyGetNat c2CallA.kwargs "top_logprobs" 1) = 1 ∧
    (3 : Nat) ≠ 1 := by
  decide

/-- **C10.** Routing invariant of both streamers: the `TokenStreamer`
emission for row `i` goes to the result queue of `batch.calls[i]` and
carries that call's `stream_id`; every `ScoreStreamer` emission likewise
targets the queue and `stream_id` of the call of its row. -/
theorem claim10_stream_routing (b : GenerateBatch) (cancels : Bool) (eos : Nat)
    (input_ids : List (List Nat)) (lastScores : List (List Int)) (last : Bool)
    (all_scores : List (List Int))
    (hlen1 : b.calls.length = input_ids.length)
    (hlen2 : b.calls.length = all_scores.length) :
    (∀ ems, tokenStreamerEmissions b cancels eos input_ids lastScores last = .ok ems →
      ∀ (i : Nat) (c : GenerateCall), b.calls[i]? = some c →
        ems[i]? = some (c.result_queue,
          tokenRowPayload c ((input_ids.getD i []).getLastD 0) (lastScores.getD i [])
            (maxNumTopLogprobs b.calls) eos last) ∧
        (∀ e, ems[i]? = some e → e.1 = c.result_queue ∧ e.2.stream_id = c.stream_id)) ∧
    (∀ qid pl, (qid, pl) ∈ scoreStreamerEmissions b all_scores →
      ∃ (i : Nat) (c : GenerateCall), b.calls[i]? = some c ∧ qid = c.result_queue ∧
        pl.stream_id = c.stream_id) := by
  constructor
  · intro ems hems i c hc
    have hi : i < b.calls.length := by
      rcases List.getElem?_eq_some_iff.mp hc with ⟨h, _⟩
      exact h
    have hil : i < input_ids.length := hlen1 ▸ hi
    have hgd : b.calls.getD i default = c := by
      rw [List.getD_eq_getElem?_getD, hc]
      rfl
    unfold tokenStreamerEmissions at hems
    rcases hcanc : (b.batchCancelled && cancels) with _ | _
    · rw [hcanc] at hems
      simp only [Bool.false_eq_true, if_false, Except.ok.injEq] at hems
      subst hems
      have hrange : (List.range input_ids.length)[i]? = some i :=
        List.getElem?_range hil
      have hmap := getElem?_map_of_getElem?
        (fun i =>
          ((b.calls.getD i default).result_queue,
            tokenRowPayload (b.calls.getD i default) ((input_ids.getD i []).getLastD 0)
              (lastScores.getD i []) (maxNumTopLogprobs b.calls) eos last)) hrange
      have hmap' : (List.map
          (fun i =>
            ((b.calls.getD i default).result_queue,
              tokenRowPayload (b.calls.getD i default) ((input_ids.getD i []).getLastD 0)
                (lastScores.getD i []) (maxNumTopLogprobs b.calls) eos last))
          (List.range input_ids.length))[i]? = some
          ((b.calls.getD i default).result_queue,
            tokenRowPayload (b.calls.getD i default) ((input_ids.getD i []).getLastD 0)
              (lastScores.getD i []) (maxNumTopLogprobs b.calls) eos last) := hmap
      rw [hgd] at hmap'
      refine ⟨hmap', ?_⟩
      intro e he
      rw [hmap'] at he
      have he' := Option.some_inj.mp he
      subst he'
      exact ⟨rfl, rfl⟩
    · rw [hcanc] at hems
      simp at hems
  · intro qid pl hmem
    unfold scoreStreamerEmissions at hmem
    rcases List.mem_flatMap.mp hmem with ⟨i, hir, hin⟩
    have hi : i < all_scores.length := List.mem_range.mp hir
    have hic : i < b.calls.length := by rw [hlen2]; exact hi
    rcases List.mem_map.mp hin with ⟨pl', hpl', heq⟩
    have hq : (b.calls.getD i default).result_queue = qid := congrArg Prod.fst heq
    have hpl2 : pl' = pl := congrArg Prod.snd heq
    refine ⟨i, b.calls.getD i default, ?_, hq.symm, ?_⟩
    · rw [List.getD_eq_getElem?_getD, List.getElem?_eq_getElem hic]
      rfl
    · subst hpl2
      unfold scoreRowPayloads at hpl'
      rcases List.mem_map.mp hpl' with ⟨jp, _, hjp⟩
      rw [← hjp]

/-- Witness batch for C10. -/
def c10Batch : GenerateBatch :=
  { input_ids := [[3], [4]], attention_mask := [[1], [1]], temperature := .vInt 0,
    max_tokens := 32, logit_biases := [[], []], calls := [c2CallA, c2CallB] }

/-- Witness for C10 at a concrete two-call batch. -/
theorem claim10_stream_routing_witness :
    (∀ ems, tokenStreamerEmissions c10Batch true 99 [[3], [4]]
        [[10, 5, 3, 1], [9, 8, 7, 6]] false = .ok ems →
      ∀ (i : Nat) (c : GenerateCall), c10Batch.calls[i]? = some c →
        ems[i]? = some (c.result_queue,
          tokenRowPayload c ((([[3], [4]] : List (List Nat)).getD i []).getLastD 0)
            (([[10, 5, 3, 1], [9, 8, 7, 6]] : List (List Int)).getD i [])
            (maxNumTopLogprobs c10Batch.calls) 99 false) ∧
        (∀ e, ems[i]? = some e → e.1 = c.result_queue ∧ e.2.stream_id = c.stream_id)) ∧
    (∀ qid pl, (qid, pl) ∈ scoreStreamerEmissions c10Batch [[-1], [-2]] →
      ∃ (i : Nat) (c : GenerateCall), c10Batch.calls[i]? = some c ∧ qid = c.result_queue ∧
        pl.stream_id = c.stream_id) :=
  claim10_stream_routing c10Batch true 99 [[3], [4]] [[10, 5, 3, 1], [9, 8, 7, 6]]
    false [[-1], [-2]] rfl rfl

/-- `k in d` / `d[k]` as a partial lookup. -/
def pyLookup (d : PyDict) (k : String) : Option PyVal :=
  match d with
  | [] => none
  | kv :: rest => if kv.1 == k then some kv.2 else pyLookup rest k

/-- Semantic equality of two dicts: the same key-value pairs, regardless
of insertion order (Python `d1 == d2`). -/
def dictSemEq (d1 d2 : PyDict) : Bool :=
  d1.all (fun kv => pyLookup d2 kv.1 == some kv.2) &&
  d2.all (fun kv => pyLookup d1 kv.1 == some kv.2)

lemma replicate_sep {c x y : Char} {n m : Nat} {xs ys : List Char}
    (hx : x ≠ c) (hy : y ≠ c)
    (h : List.replicate n c ++ x :: xs = List.replicate m c ++ y :: ys) :
    n = m ∧ x = y ∧ xs = ys := by
  induction n generalizing m with
  | zero =>
    cases m with
    | zero => simpa using h
    | succ m =>
      rw [List.replicate_succ, List.replicate_zero] at h
      simp only [List.nil_append, List.cons_append, List.cons.injEq] at h
      exact absurd h.1 hx
  | succ n ih =>
    cases m with
    | zero =>
      rw [List.replicate_succ, List.replicate_zero] at h
      simp only [List.nil_append, List.cons_append, List.cons.injEq] at h
      exact absurd h.1.symm hy
    | succ m =>
      rw [List.replicate_succ, List.replicate_succ] at h
      simp only [List.cons_append, List.cons.injEq, true_and] at h
      obtain ⟨h1, h2, h3⟩ := ih h
      exact ⟨by omega, h2, h3⟩

lemma encCharsStr_inj {a b : String} {r1 r2 : List Char}
    (h : encCharsStr a ++ r1 = encCharsStr b ++ r2) : a = b ∧ r1 = r2 := by
  unfold encCharsStr at h
  rw [List.append_assoc, List.append_assoc, List.cons_append, List.cons_append] at h
  obtain ⟨hlen, -, htail⟩ := replicate_sep (by decide) (by decide) h
  have hdlen : a.data.length = b.data.length := hlen
  obtain ⟨hd, hr⟩ := List.append_inj htail hdlen
  refine ⟨?_, hr⟩
  cases a
  cases b
  exact congrArg String.mk (by simpa using hd)

lemma encCharsVal_inj {v1 v2 : PyVal} {r1 r2 : List Char}
    (h : encCharsVal v1 ++ r1 = encCharsVal v2 ++ r2) : v1 = v2 ∧ r1 = r2 := by
  cases v1 with
  | vBool b1 =>
    cases v2 with
    | vBool b2 =>
      cases b1 <;> cases b2 <;>
        simp only [encCharsVal, List.cons_append, List.nil_append,
          List.cons.injEq, true_and] at h
      all_goals first
      | exact ⟨rfl, h⟩
      | exact absurd h.1 (by decide)
    | vInt n2 =>
      simp only [encCharsVal, List.cons_append, List.cons.injEq] at h
      exact absurd h.1 (by decide)
    | vStr s2 =>
      simp only [encCharsVal, List.cons_append, List.cons.injEq] at h
      exact absurd h.1 (by decide)
  | vInt n1 =>
    cases v2 with
    | vBool b2 =>
      simp only [encCharsVal, List.cons_append, List.cons.injEq] at h
      exact absurd h.1 (by decide)
    | vInt n2 =>
      simp only [encCharsVal, List.cons_append, List.append_assoc,
        List.singleton_append, List.cons.injEq, true_and] at h
      obtain ⟨hsign, htail⟩ := h
      obtain ⟨habs, -, hr⟩ := replicate_sep (by decide) (by decide) htail
      by_cases h1 : n1 < 0 <;> by_cases h2 : n2 < 0
      · refine ⟨?_, hr⟩
        have : n1 = n2 := by omega
        rw [this]
      · rw [if_pos h1, if_neg h2] at hsign
        exact absurd hsign (by decide)
      · rw [if_neg h1, if_pos h2] at hsign
        exact absurd hsign (by decide)
      · refine ⟨?_, hr⟩
        have : n1 = n2 := by omega
        rw [this]
    | vStr s2 =>
      simp only [encCharsVal, List.cons_append, List.cons.injEq] at h
      exact absurd h.1 (by decide)
  | vStr s1 =>
    cases v2 with
    | vBool b2 =>
      simp only [encCharsVal, List.cons_append, List.cons.injEq] at h
      exact absurd h.1 (by decide)
    | vInt n2 =>
      simp only [encCharsVal, List.cons_append, List.cons.injEq] at h
      exact absurd h.1 (by decide)
    | vStr s2 =>
      simp only [encCharsVal, List.cons_append, List.cons.injEq, true_and] at h
      obtain ⟨hs, hr⟩ := encCharsStr_inj h
      exact ⟨by rw [hs], hr⟩

lemma encEntry_inj {e1 e2 : String × PyVal} {r1 r2 : List Char}
    (h : encEntry e1 ++ r1 = encEntry e2 ++ r2) : e1 = e2 ∧ r1 = r2 := by
  unfold encEntry at h
  rw [List.append_assoc, List.append_assoc] at h
  obtain ⟨hk, htail⟩ := encCharsStr_inj h
  obtain ⟨hv, hr⟩ := encCharsVal_inj htail
  refine ⟨?_, hr⟩
  cases e1
  cases e2
  simp_all

lemma encEntry_ne_nil (kv : String × PyVal) : encEntry kv ≠ [] := by
  unfold encEntry encCharsStr
  simp

lemma encEntries_inj : ∀ {d1 d2 : PyDict},
    d1.foldr (fun kv acc => encEntry kv ++ acc) [] =
      d2.foldr (fun kv acc => encEntry kv ++ acc) [] → d1 = d2 := by
  intro d1
  induction d1 with
  | nil =>
    intro d2 h
    cases d2 with
    | nil => rfl
    | cons kv2 rest2 =>
      rw [List.foldr_nil, List.foldr_cons] at h
      rcases List.append_eq_nil.mp h.symm with ⟨h1, -⟩
      exact absurd h1 (encEntry_ne_nil kv2)
  | cons kv1 rest1 ih =>
    intro d2 h
    cases d2 with
    | nil =>
      rw [List.foldr_cons, List.foldr_nil] at h
      rcases List.append_eq_nil.mp h with ⟨h1, -⟩
      exact absurd h1 (encEntry_ne_nil kv1)
    | cons kv2 rest2 =>
      rw [List.foldr_cons, List.foldr_cons] at h
      obtain ⟨hkv, hrest⟩ := encEntry_inj h
      rw [hkv, ih hrest]

/-- **C5 counterexample.** Two semantically equal `model_args` mappings
with different insertion orders produce different registry keys: the
pickle serialization walks the dict in insertion order, so logically equal
argument sets do NOT always collide — refuting the claimed
order-independence. -/
theorem claim5_counterexample :
    dictSemEq [("a", .vInt 0), ("b", .vInt 1)] [("b", .vInt 1), ("a", .vInt 0)] = true ∧
    schedulerKey "m" [("a", .vInt 0), ("b", .vInt 1)] ≠
      schedulerKey "m" [("b", .vInt 1), ("a", .vInt 0)] := by
  decide

/-- **C5 (amended).** The registry-key encoding of `Scheduler.instance`
and `Scheduler.dealloc` is deterministic and injective, but
order-sensitive: two `(model identifier, model args)` pairs produce equal
keys iff the identifiers are equal and the argument dicts are equal **as
ordered sequences of key-value pairs** (same pairs in the same insertion
order) — not merely semantically equal. -/
theorem claim5_registry_key_iff (m1 m2 : String) (d1 d2 : PyDict) :
    schedulerKey m1 d1 = schedulerKey m2 d2 ↔ (m1 = m2 ∧ d1 = d2) := by
  constructor
  · intro h
    unfold schedulerKey at h
    have h1 : m1 = m2 := congrArg Prod.fst h
    have h2 : pickleDumps d1 = pickleDumps d2 := congrArg Prod.snd h
    unfold pickleDumps at h2
    have h3 := congrArg String.data h2
    simp only [String.data] at h3
    exact ⟨h1, encEntries_inj h3⟩
  · rintro ⟨rfl, rfl⟩
    rfl

end LMTP
